import Mathlib

/-
Verification of the XTERNAL segmented download engine (src/XTERNAL/main.py)
against its specification. Shallow embedding: the planner, worker loop body,
reassembly loop, failure cleanup, single-stream fallback and URL validation
are translated into executable Lean definitions, machine integers as
Nat/Int (Python ints are unbounded, so no wrap-around modelling is needed).
-/

/-- Worker count of the segmented path, main.py line 578:
`num_threads = min(CONFIG['max_threads'], 16)`. The configured maximum is a
Python int, so modelled as an integer with no lower clamp. -/
def numThreads (maxThreads : ℤ) : ℤ := min maxThreads 16

/-- Segment plan of threaded_download_advanced, main.py lines 580-586:
`chunk_size = file_size // num_threads`, and for each thread index i,
`start = i * chunk_size`, `end = start + chunk_size - 1` when
`i < num_threads - 1`, else `end = file_size - 1`. Byte positions are kept
in ℤ because `end` can be -1 when chunk_size is 0. -/
def downloadTasks (fileSize : ℕ) (n : ℕ) : List (ℤ × ℤ) :=
  (List.range n).map (fun i =>
    (((i * (fileSize / n) : ℕ) : ℤ),
      if i < n - 1 then ((i * (fileSize / n) + fileSize / n : ℕ) : ℤ) - 1
      else (fileSize : ℤ) - 1))

/-- Reassembly loop of threaded_download_advanced, main.py lines 655-661: the
sinks are visited in ascending index order; when the sink file exists its bytes
are copied into the destination and the sink is removed, and a missing sink is
silently skipped. A sink state of `none` means the part file does not exist.
Returns the destination bytes together with the post-loop sink states. -/
def combineChunks : List (Option (List ℕ)) → List ℕ × List (Option (List ℕ))
  | [] => ([], [])
  | some b :: rest => (b ++ (combineChunks rest).1, none :: (combineChunks rest).2)
  | none :: rest => ((combineChunks rest).1, none :: (combineChunks rest).2)

/-- Failure cleanup loop of threaded_download_advanced, main.py lines 665-668:
every part file that exists is removed, so afterwards no sink exists. -/
def cleanupSinks : List (Option (List ℕ)) → List (Option (List ℕ))
  | [] => []
  | _ :: rest => none :: cleanupSinks rest

/-- Tail of threaded_download_advanced once all workers have finished, main.py
lines 651-669. `results` holds, per thread index, the worker's returned sink
contents (`none` when download_chunk caught an exception and returned None).
`temp_files = [f.result() for f in futures if f.result()]` is modelled by
`results.filterMap id`; the destination file is opened and the sinks combined
only when its length equals the thread count, otherwise every sink is removed
and False is returned. Components: destination contents when the destination
file was opened, the final sink states, and the returned boolean. -/
def threadedFinish (results : List (Option (List ℕ))) :
    Option (List ℕ) × List (Option (List ℕ)) × Bool :=
  if (results.filterMap id).length = results.length then
    (some (combineChunks results).1, (combineChunks results).2, true)
  else
    (none, cleanupSinks results, false)

/-- Routing decision of professional_download, main.py line 469: the threaded
(segmented) path runs only when `file_size > 10 * 1024 * 1024` and the probe
reported range support; otherwise simple_download_advanced runs. -/
def useThreaded (fileSize : ℕ) (supportsResume : Bool) : Bool :=
  decide (10 * 1024 * 1024 < fileSize) && supportsResume

/-- The bytes of the remote resource lying in a planned segment, for a segment
given as an inclusive byte range. Used to state the reassembly round trip. -/
def segmentBytes (resource : List ℕ) (t : ℤ × ℤ) : List ℕ :=
  (resource.drop t.1.toNat).take (t.2 - t.1 + 1).toNat

/-- Outcome of simple_download_advanced, main.py lines 515-575. `rangeHeader`
is `some p` when the request carried `Range: bytes=p-`; `appendMode` is true
when the destination was opened with mode 'ab' rather than 'wb';
`networkUsed` is false exactly on the already-complete early return. -/
structure SimpleResult where
  rangeHeader : Option ℕ
  appendMode : Bool
  networkUsed : Bool
  finalFile : List ℕ
  ok : Bool
deriving DecidableEq

/-- simple_download_advanced, main.py lines 515-575, over an abstract transport
and filesystem: `destExists` and `existing` describe the destination file on
disk, `fileSize` is the probed total size, and `resource` the remote content;
the transport is assumed to honour `Range: bytes=p-` by serving
`resource.drop p` and to serve all of `resource` otherwise. `resume_pos` is
the existing size when the file exists and resume is enabled (lines 516-518);
when it equals the probed size the function returns True with no request
(lines 519-521); a positive resume position adds the Range header and opens
in append mode (lines 533-536); the streamed body is written after the kept
portion. -/
def simpleDownload (destExists resumeEnabled : Bool) (existing : List ℕ)
    (fileSize : ℕ) (resource : List ℕ) : SimpleResult :=
  let resumePos : ℕ := if destExists ∧ resumeEnabled then existing.length else 0
  if destExists ∧ resumeEnabled ∧ existing.length = fileSize then
    { rangeHeader := none, appendMode := false, networkUsed := false,
      finalFile := existing, ok := true }
  else
    { rangeHeader := if 0 < resumePos then some resumePos else none,
      appendMode := decide (0 < resumePos),
      networkUsed := true,
      finalFile := if 0 < resumePos then existing ++ resource.drop resumePos
        else resource.drop resumePos,
      ok := true }

/-- Body of the chunk loop in download_chunk, main.py lines 612-616: the chunk
is written to the sink and its length added to the shared progress counter.
The loop body contains no rate-limit computation and no sleep, so the seconds
slept per iteration (the second component) are always 0. -/
def workerChunkIteration (sink : List ℕ) (counter : ℕ) (chunk : List ℕ) :
    (List ℕ × ℕ) × ℚ :=
  ((sink ++ chunk, counter + chunk.length), 0)

/-- Rate limiting in the chunk loop of simple_download_advanced, main.py lines
552-558: when the configured cap is positive, `expected_time` is
`len(chunk) / (cap * 1024)` seconds and the loop sleeps
`expected_time - elapsed` whenever `elapsed < expected_time`. Returns the
seconds slept for one chunk. -/
def simpleChunkSleep (rateLimitKbps : ℕ) (chunkLen : ℕ) (elapsed : ℚ) : ℚ :=
  if 0 < rateLimitKbps then
    if elapsed < (chunkLen : ℚ) / ((rateLimitKbps : ℚ) * 1024) then
      (chunkLen : ℚ) / ((rateLimitKbps : ℚ) * 1024) - elapsed
    else 0
  else 0

/-- Characters permitted in a URL scheme by urllib.parse (letters, digits,
plus, minus, dot). -/
def schemeChar (c : Char) : Bool :=
  c.isAlpha || c.isDigit || c == '+' || c == '-' || c == '.'

/-- Splits a character list at its first colon, returning the part before and
the part after, or `none` when no colon occurs. -/
def splitFirstColon : List Char → Option (List Char × List Char)
  | [] => none
  | c :: rest =>
    if c == ':' then some ([], rest)
    else (splitFirstColon rest).map (fun p => (c :: p.1, p.2))

/-- True on the characters that terminate the netloc component. -/
def netlocEnd (c : Char) : Bool := c == '/' || c == '?' || c == '#'

/-- Lower-cases a character list, modelling str.lower on ASCII text. -/
def lowerL (l : List Char) : List Char := l.map Char.toLower

/-- Whether the second list is an initial run of the first, modelling
str.startswith. -/
def startsWithL : List Char → List Char → Bool
  | _, [] => true
  | [], _ :: _ => false
  | c :: cs, d :: ds => c == d && startsWithL cs ds

/-- Whether the second list is a final run of the first, modelling
str.endswith. -/
def endsWithL (l pat : List Char) : Bool := startsWithL l.reverse pat.reverse

/-- Result of urllib.parse.urlparse restricted to the three components
validate_url reads. -/
structure ParsedUrl where
  scheme : List Char
  netloc : List Char
  path : List Char
deriving DecidableEq

/-- After the scheme is removed: a leading `//` introduces the netloc, which
extends to the next `/`, `?` or `#`; the path is the remainder up to a `?` or
`#`. Models urllib.parse for URLs without parameters. -/
def parseAfterScheme (rest : List Char) : List Char × List Char :=
  match rest with
  | '/' :: '/' :: r =>
    (r.takeWhile (fun c => ! netlocEnd c),
      ((r.dropWhile (fun c => ! netlocEnd c)).takeWhile (fun c => ! (c == '?' || c == '#'))))
  | r => ([], r.takeWhile (fun c => ! (c == '?' || c == '#')))

/-- Models urllib.parse.urlparse for the scheme, netloc and path components:
a valid scheme (leading letter, scheme characters only) before the first colon
is split off and lower-cased; otherwise the scheme is empty and the whole
input is parsed for netloc and path. -/
def urlparseL (url : List Char) : ParsedUrl :=
  match splitFirstColon url with
  | some (before, rest) =>
    if before ≠ [] ∧ before.all schemeChar ∧ (before.head?.map Char.isAlpha).getD false then
      let np := parseAfterScheme rest
      ⟨lowerL before, np.1, np.2⟩
    else
      let np := parseAfterScheme url
      ⟨[], np.1, np.2⟩
  | none =>
    let np := parseAfterScheme url
    ⟨[], np.1, np.2⟩

/-- CONFIG allowed_protocols, main.py line 134. -/
def allowedProtocols : List (List Char) :=
  [ "http".data, "https".data, "ftp".data, "ftps".data, "sftp".data ]

/-- CONFIG blocked_extensions, main.py line 133. -/
def blockedExtensions : List (List Char) :=
  [ ".exe".data, ".scr".data, ".bat".data, ".cmd".data ]

/-- suspicious_domains, main.py line 336. -/
def suspiciousDomains : List (List Char) :=
  [ "localhost".data, "127.0.0.1".data, "0.0.0.0".data ]

/-- The literal the bypass check compares the raw URL against, main.py
line 337. -/
def localhostBypass : List Char := "http://localhost".data

/-- Reasons validate_url can reject a URL, in the order the checks appear in
main.py lines 326-348. -/
inductive UrlRejection where
  | protocolNotAllowed
  | invalidHostname
  | suspiciousDomain
  | blockedFileType
deriving DecidableEq

/-- validate_url, main.py lines 326-348: rejects when the parsed scheme is not
in allowed_protocols, when the netloc is empty, when the lower-cased netloc is
a suspicious domain and the raw URL does not start with `http://localhost`,
and when the lower-cased path ends with a blocked extension; otherwise the URL
is accepted (`none`). Pure, no I/O. -/
def validateUrl (url : List Char) : Option UrlRejection :=
  let parsed := urlparseL url
  if ¬ parsed.scheme ∈ allowedProtocols then some .protocolNotAllowed
  else if parsed.netloc = [] then some .invalidHostname
  else if lowerL parsed.netloc ∈ suspiciousDomains ∧ ¬ startsWithL url localhostBypass then
    some .suspiciousDomain
  else if (blockedExtensions.filter (fun e => endsWithL (lowerL parsed.path) e)) ≠ [] then
    some .blockedFileType
  else none

lemma downloadTasks_length (fileSize n : ℕ) : (downloadTasks fileSize n).length = n := by
  simp [downloadTasks]

lemma downloadTasks_getElem? (fileSize n i : ℕ) (hi : i < n) :
    (downloadTasks fileSize n)[i]? =
      some (((i * (fileSize / n) : ℕ) : ℤ),
        if i < n - 1 then ((i * (fileSize / n) + fileSize / n : ℕ) : ℤ) - 1
        else (fileSize : ℤ) - 1) := by
  simp [downloadTasks, List.getElem?_map, List.getElem?_range, hi]

lemma downloadTasks_index_lt (fileSize n i : ℕ) (s : ℤ × ℤ)
    (h : (downloadTasks fileSize n)[i]? = some s) : i < n := by
  by_contra hc
  rw [List.getElem?_eq_none (by simpa [downloadTasks_length] using Nat.le_of_not_lt hc)] at h
  exact Option.noConfusion h

lemma list_range_map_sum (f : ℕ → ℤ) (n : ℕ) :
    ((List.range n).map f).sum = ∑ i in Finset.range n, f i := by
  induction n with
  | zero => simp
  | succ k ih =>
    rw [List.range_succ, List.map_append, List.sum_append, Finset.sum_range_succ, ih]
    simp

lemma planSum (total c m : ℕ) :
    (((List.range (m + 1)).map (fun i =>
        (((i * c : ℕ) : ℤ),
          if i < m + 1 - 1 then ((i * c + c : ℕ) : ℤ) - 1 else (total : ℤ) - 1))).map
      (fun s : ℤ × ℤ => s.2 - s.1 + 1)).sum = (total : ℤ) := by
  have hmap : (List.range (m + 1)).map ((fun s : ℤ × ℤ => s.2 - s.1 + 1) ∘ (fun i =>
        (((i * c : ℕ) : ℤ),
          if i < m + 1 - 1 then ((i * c + c : ℕ) : ℤ) - 1 else (total : ℤ) - 1))) =
      (List.range (m + 1)).map
        (fun i => if i < m then (c : ℤ) else (total : ℤ) - ((m * c : ℕ) : ℤ)) := by
    refine List.map_congr_left (fun i hi => ?_)
    simp only [Function.comp_apply]
    rcases Nat.lt_or_ge i m with h | h
    · rw [if_pos (by omega : i < m + 1 - 1), if_pos h]
      push_cast
      ring
    · have him : i = m := by
        have := List.mem_range.1 hi
        omega
      rw [if_neg (by omega : ¬ i < m + 1 - 1), if_neg (by omega : ¬ i < m), him]
      push_cast
      ring
  rw [List.map_map, hmap, list_range_map_sum, Finset.sum_range_succ, if_neg (lt_irrefl m)]
  have hconst : ∑ i in Finset.range m, (if i < m then (c : ℤ) else (total : ℤ) - ((m * c : ℕ) : ℤ))
      = ∑ _i in Finset.range m, (c : ℤ) :=
    Finset.sum_congr rfl (fun i hi => if_pos (Finset.mem_range.1 hi))
  rw [hconst, Finset.sum_const, Finset.card_range, nsmul_eq_mul]
  push_cast
  ring

lemma downloadTasks_sum_lengths (fileSize n : ℕ) (hn : 1 ≤ n) :
    ((downloadTasks fileSize n).map (fun s : ℤ × ℤ => s.2 - s.1 + 1)).sum = (fileSize : ℤ) := by
  obtain ⟨m, rfl⟩ : ∃ m, n = m + 1 := ⟨n - 1, (Nat.succ_pred_eq_of_pos hn).symm⟩
  exact planSum fileSize (fileSize / (m + 1)) m

/-- Claim C1: for every total_size > 0 and every worker count n in [1,32], the
planned segments exactly tile [0, total_size-1]: the i-th of n segments is
[i*(total/n), (i+1)*(total/n)-1] for i < n-1, the last segment ends at
total_size-1, consecutive segments are contiguous, ranges are sorted by index
and non-overlapping, and the segment lengths sum to total_size. -/
theorem claim_C1_planner_tiles (total n : ℕ) (_h0 : 1 ≤ total) (h1 : 1 ≤ n) (h2 : n ≤ 32) :
    (downloadTasks total n).length = n ∧
    (∀ i, i < n - 1 →
      (downloadTasks total n)[i]? =
        some (((i * (total / n) : ℕ) : ℤ), (((i + 1) * (total / n) : ℕ) : ℤ) - 1)) ∧
    (downloadTasks total n)[n - 1]? =
      some ((((n - 1) * (total / n) : ℕ) : ℤ), (total : ℤ) - 1) ∧
    (∀ (i : ℕ) (s t : ℤ × ℤ), (downloadTasks total n)[i]? = some s →
      (downloadTasks total n)[i + 1]? = some t → t.1 = s.2 + 1) ∧
    (∀ (i j : ℕ) (s t : ℤ × ℤ), i < j → (downloadTasks total n)[i]? = some s →
      (downloadTasks total n)[j]? = some t → s.1 ≤ t.1 ∧ s.2 < t.1) ∧
    ((downloadTasks total n).map (fun s : ℤ × ℤ => s.2 - s.1 + 1)).sum = (total : ℤ) := by
  refine ⟨downloadTasks_length total n, ?_, ?_, ?_, ?_, downloadTasks_sum_lengths total n h1⟩
  · intro i hi
    rw [downloadTasks_getElem? total n i (by omega), if_pos hi]
    have harith : (i * (total / n) + total / n : ℕ) = ((i + 1) * (total / n) : ℕ) := by ring
    rw [harith]
  · rw [downloadTasks_getElem? total n (n - 1) (by omega), if_neg (lt_irrefl (n - 1))]
  · intro i s t hs ht
    have hi1 : i + 1 < n := downloadTasks_index_lt total n (i + 1) t ht
    rw [downloadTasks_getElem? total n i (by omega), if_pos (by omega : i < n - 1)] at hs
    rw [downloadTasks_getElem? total n (i + 1) hi1] at ht
    obtain rfl := (Option.some.inj hs).symm
    obtain rfl := (Option.some.inj ht).symm
    simp only
    push_cast
    ring
  · intro i j s t hij hs ht
    have hj : j < n := downloadTasks_index_lt total n j t ht
    rw [downloadTasks_getElem? total n i (by omega), if_pos (by omega : i < n - 1)] at hs
    rw [downloadTasks_getElem? total n j hj] at ht
    obtain rfl := (Option.some.inj hs).symm
    obtain rfl := (Option.some.inj ht).symm
    set c := total / n with hcdef
    have hc0 : (0 : ℤ) ≤ (c : ℤ) := by positivity
    have hij' : ((i : ℤ) + 1) ≤ (j : ℤ) := by exact_mod_cast (by omega : i + 1 ≤ j)
    constructor
    · simp only
      push_cast
      nlinarith
    · simp only
      push_cast
      nlinarith

/-- Concrete instance of claim C1 at total_size = 10, worker count 3. -/
theorem claim_C1_planner_tiles_witness :
    1 ≤ 10 ∧ (downloadTasks 10 3).length = 3 ∧
    ((downloadTasks 10 3).map (fun s : ℤ × ℤ => s.2 - s.1 + 1)).sum = (10 : ℤ) :=
  ⟨by decide, (claim_C1_planner_tiles 10 3 (by decide) (by decide) (by decide)).1,
    (claim_C1_planner_tiles 10 3 (by decide) (by decide) (by decide)).2.2.2.2.2⟩

lemma filterMap_id_cons_none {α : Type} (xs : List (Option α)) :
    (none :: xs).filterMap id = xs.filterMap id := by
  simp

lemma filterMap_id_cons_some {α : Type} (a : α) (xs : List (Option α)) :
    (some a :: xs).filterMap id = a :: xs.filterMap id := by
  simp

lemma length_filterMap_id_le {α : Type} (l : List (Option α)) :
    (l.filterMap id).length ≤ l.length := by
  induction l with
  | nil => simp
  | cons x xs ih =>
    cases x with
    | none =>
      rw [filterMap_id_cons_none, List.length_cons]
      omega
    | some a =>
      rw [filterMap_id_cons_some, List.length_cons, List.length_cons]
      omega

lemma length_filterMap_id_lt {α : Type} {l : List (Option α)} (h : none ∈ l) :
    (l.filterMap id).length < l.length := by
  induction l with
  | nil => simp at h
  | cons x xs ih =>
    cases x with
    | none =>
      have := length_filterMap_id_le xs
      rw [filterMap_id_cons_none, List.length_cons]
      omega
    | some a =>
      rw [List.mem_cons] at h
      rcases h with h | h
      · exact absurd h.symm (by simp)
      · have := ih h
        rw [filterMap_id_cons_some, List.length_cons, List.length_cons]
        omega

lemma mem_of_getElem?_some {α : Type} {l : List α} {i : ℕ} {a : α}
    (h : l[i]? = some a) : a ∈ l := by
  induction l generalizing i with
  | nil => simp at h
  | cons x xs ih =>
    cases i with
    | zero =>
      simp only [List.getElem?_cons_zero, Option.some.injEq] at h
      simp [h]
    | succ k =>
      simp only [List.getElem?_cons_succ] at h
      exact List.mem_cons_of_mem x (ih h)

lemma cleanupSinks_eq_none :
    ∀ (l : List (Option (List ℕ))) s, s ∈ cleanupSinks l → s = none := by
  intro l
  induction l with
  | nil => intro s h; simp [cleanupSinks] at h
  | cons x xs ih =>
    intro s h
    simp only [cleanupSinks, List.mem_cons] at h
    rcases h with h | h
    · exact h
    · exact ih s h

lemma combineChunks_fst (l : List (Option (List ℕ))) :
    (combineChunks l).1 = (l.filterMap id).flatten := by
  induction l with
  | nil => rfl
  | cons x xs ih =>
    cases x with
    | none =>
      rw [filterMap_id_cons_none]
      simpa [combineChunks] using ih
    | some b =>
      rw [filterMap_id_cons_some]
      simp [combineChunks, ih]

lemma combineChunks_snd_eq_none :
    ∀ (l : List (Option (List ℕ))) s, s ∈ (combineChunks l).2 → s = none := by
  intro l
  induction l with
  | nil => intro s h; simp [combineChunks] at h
  | cons x xs ih =>
    intro s h
    cases x with
    | none =>
      simp only [combineChunks, List.mem_cons] at h
      rcases h with h | h
      · exact h
      · exact ih s h
    | some b =>
      simp only [combineChunks, List.mem_cons] at h
      rcases h with h | h
      · exact h
      · exact ih s h

/-- Claim C2: if any segment of a multi-segment download ends Failed (its
worker returned no sink), threaded_download_advanced returns False, the
destination file is never opened by the reassembly step, and every per-segment
sink file is deleted before returning. -/
theorem claim_C2_failed_segment_voids (results : List (Option (List ℕ))) (i : ℕ)
    (hfail : results[i]? = some none) :
    (threadedFinish results).1 = none ∧
    (threadedFinish results).2.2 = false ∧
    ∀ s ∈ (threadedFinish results).2.1, s = none := by
  have hmem : none ∈ results := mem_of_getElem?_some hfail
  have hlt := length_filterMap_id_lt hmem
  have hne : ¬ (results.filterMap id).length = results.length := by omega
  unfold threadedFinish
  rw [if_neg hne]
  exact ⟨rfl, rfl, cleanupSinks_eq_none results⟩

/-- Concrete instance of claim C2: two segments, the second one failed. -/
theorem claim_C2_failed_segment_voids_witness :
    ([some [1], none] : List (Option (List ℕ)))[1]? = some none ∧
    ((threadedFinish [some [1], none]).1 = none ∧
      (threadedFinish [some [1], none]).2.2 = false ∧
      ∀ s ∈ (threadedFinish [some [1], none]).2.1, s = none) :=
  ⟨by decide, claim_C2_failed_segment_voids [some [1], none] 1 (by decide)⟩

/-- Claim C6 is false on the code: there is no IncompleteTransferError
anywhere in the program, and the reassembly loop, run with segment 1's sink
missing, raises nothing and silently skips it, returning a truncated
destination instead of failing. -/
theorem claim_C6_counterexample :
    combineChunks [some [7], none, some [9]] = ([7, 9], [none, none, none]) := by
  decide

/-- Claim C6 (amended): reassembly re-verifies nothing itself — its destination
is always the concatenation of just the sinks present, in index order,
silently skipping missing ones; the only guard is the caller's count check,
which withholds reassembly (returning False) whenever some worker returned no
sink. -/
theorem claim_C6_amended_guard (results : List (Option (List ℕ))) :
    (combineChunks results).1 = (results.filterMap id).flatten ∧
    ((results.filterMap id).length ≠ results.length →
      (threadedFinish results).2.2 = false ∧ (threadedFinish results).1 = none) := by
  refine ⟨combineChunks_fst results, fun h => ?_⟩
  unfold threadedFinish
  rw [if_neg h]
  exact ⟨rfl, rfl⟩

/-- Concrete instance of the amended claim C6. -/
theorem claim_C6_amended_guard_witness :
    (combineChunks [some [1], none]).1 =
      (([some [1], none] : List (Option (List ℕ))).filterMap id).flatten ∧
    (threadedFinish [some [1], none]).2.2 = false :=
  ⟨(claim_C6_amended_guard [some [1], none]).1,
    ((claim_C6_amended_guard [some [1], none]).2 (by decide)).1⟩

/-- Claim C7 is false on the code: the worker count is min(max_threads, 16)
with no lower clamp, so a configured maximum of 0 yields worker count 0 — not
in [1, configured_max] — and file_size // 0 then raises ZeroDivisionError. -/
theorem claim_C7_counterexample :
    numThreads 0 = 0 ∧ ¬ 1 ≤ numThreads 0 := by decide

/-- Claim C7 (amended): for every configured maximum ≥ 1, the worker count
min(configured_max, 16) lies in [1, configured_max] (and within the hard cap
16), so the per-segment division is by a nonzero count; there is no lower
clamp for configured maxima ≤ 0. -/
theorem claim_C7_amended_clamp (m : ℤ) (hm : 1 ≤ m) :
    1 ≤ numThreads m ∧ numThreads m ≤ m ∧ numThreads m ≤ 16 ∧ numThreads m ≠ 0 := by
  have h1 : 1 ≤ numThreads m := le_min hm (by norm_num)
  refine ⟨h1, min_le_left m 16, min_le_right m 16, ?_⟩
  intro h0
  rw [h0] at h1
  exact absurd h1 (by norm_num)

/-- Concrete instance of the amended claim C7 at configured maximum 8. -/
theorem claim_C7_amended_clamp_witness :
    (1 : ℤ) ≤ 8 ∧
    (1 ≤ numThreads 8 ∧ numThreads 8 ≤ 8 ∧ numThreads 8 ≤ 16 ∧ numThreads 8 ≠ 0) :=
  ⟨by decide, claim_C7_amended_clamp 8 (by decide)⟩

lemma flatten_take_slices (resource : List ℕ) (c : ℕ) :
    ∀ m, ((List.range m).map (fun i => (resource.drop (i * c)).take c)).flatten
      = resource.take (m * c) := by
  intro m
  induction m with
  | zero => simp
  | succ k ih =>
    rw [List.range_succ, List.map_append, List.flatten_append, ih]
    simp only [List.map_cons, List.map_nil, List.flatten_cons, List.flatten_nil,
      List.append_nil]
    rw [Nat.succ_mul, List.take_add]

lemma segmentBytes_mid (resource : List ℕ) (a c : ℕ) :
    segmentBytes resource (((a : ℕ) : ℤ), ((a + c : ℕ) : ℤ) - 1)
      = (resource.drop a).take c := by
  unfold segmentBytes
  have h1 : (((a : ℕ) : ℤ)).toNat = a := by omega
  have h2 : ((((a + c : ℕ) : ℤ) - 1) - ((a : ℕ) : ℤ) + 1).toNat = c := by
    omega
  rw [h1, h2]

lemma segmentBytes_last (resource : List ℕ) (a : ℕ) (ha : a ≤ resource.length) :
    segmentBytes resource (((a : ℕ) : ℤ), (resource.length : ℤ) - 1)
      = resource.drop a := by
  unfold segmentBytes
  have h1 : (((a : ℕ) : ℤ)).toNat = a := by omega
  have h2 : (((resource.length : ℤ) - 1) - ((a : ℕ) : ℤ) + 1).toNat
      = resource.length - a := by
    omega
  rw [h1, h2]
  exact List.take_of_length_le (by simp)

lemma downloadTasks_slices_flatten (resource : List ℕ) (n : ℕ) (hn : 1 ≤ n) :
    ((downloadTasks resource.length n).map (fun t => segmentBytes resource t)).flatten
      = resource := by
  obtain ⟨m, rfl⟩ : ∃ m, n = m + 1 := ⟨n - 1, (Nat.succ_pred_eq_of_pos hn).symm⟩
  set c := resource.length / (m + 1) with hc
  have hmc : m * c ≤ resource.length := by
    have hdiv : (m + 1) * c ≤ resource.length := by
      rw [hc, Nat.mul_comm]
      exact Nat.div_mul_le_self resource.length (m + 1)
    exact le_trans (mul_le_mul_right' (Nat.le_succ m) c) hdiv
  have hmap : (downloadTasks resource.length (m + 1)).map (fun t => segmentBytes resource t)
      = ((List.range m).map (fun i => (resource.drop (i * c)).take c))
          ++ [resource.drop (m * c)] := by
    unfold downloadTasks
    rw [← hc, List.map_map, List.range_succ, List.map_append]
    congr 1
    · refine List.map_congr_left (fun i hi => ?_)
      have him : i < m := List.mem_range.1 hi
      simp only [Function.comp_apply, if_pos (by omega : i < m + 1 - 1)]
      exact segmentBytes_mid resource (i * c) c
    · simp only [List.map_cons, List.map_nil, Function.comp_apply, Nat.add_sub_cancel,
        lt_self_iff_false, if_false]
      rw [segmentBytes_last resource (m * c) hmc]
  rw [hmap, List.flatten_append, flatten_take_slices]
  simp [List.take_append_drop]

/-- Claim C3: when each sink holds exactly the resource bytes of its planned
segment, reassembling in ascending index order yields a destination
byte-identical to a single-stream download of the whole resource, and every
sink is deleted after being copied. Completion order of the workers does not
appear: reassembly reads only the sink contents, indexed by segment. -/
theorem claim_C3_reassembly_roundtrip (resource : List ℕ) (n : ℕ) (hn : 1 ≤ n) :
    (combineChunks ((downloadTasks resource.length n).map
        (fun t => some (segmentBytes resource t)))).1
      = (simpleDownload false true [] resource.length resource).finalFile ∧
    (simpleDownload false true [] resource.length resource).finalFile = resource ∧
    ∀ s ∈ (combineChunks ((downloadTasks resource.length n).map
        (fun t => some (segmentBytes resource t)))).2, s = none := by
  have hsingle : (simpleDownload false true [] resource.length resource).finalFile
      = resource := by
    simp [simpleDownload]
  refine ⟨?_, hsingle, ?_⟩
  · rw [combineChunks_fst, hsingle]
    have hfm : ∀ l : List (ℤ × ℤ),
        (l.map (fun t => some (segmentBytes resource t))).filterMap id
          = l.map (fun t => segmentBytes resource t) := by
      intro l
      induction l with
      | nil => rfl
      | cons x xs ih => rw [List.map_cons, filterMap_id_cons_some, ih, List.map_cons]
    rw [hfm]
    exact downloadTasks_slices_flatten resource n hn
  · exact combineChunks_snd_eq_none _

/-- Concrete instance of claim C3: a five-byte resource split two ways. -/
theorem claim_C3_reassembly_roundtrip_witness :
    1 ≤ 2 ∧
    (combineChunks ((downloadTasks ([3, 1, 4, 1, 5] : List ℕ).length 2).map
        (fun t => some (segmentBytes [3, 1, 4, 1, 5] t)))).1
      = (simpleDownload false true [] ([3, 1, 4, 1, 5] : List ℕ).length
          [3, 1, 4, 1, 5]).finalFile :=
  ⟨by decide, (claim_C3_reassembly_roundtrip [3, 1, 4, 1, 5] 2 (by decide)).1⟩

/-- Claim C4 is false on the code at L = 0: with resume enabled and an
existing empty destination file (L = 0 < total size 5), simple_download
sends no Range header and opens with mode 'wb', not 'ab' — resume_pos > 0 is
required before the ranged request is issued. -/
theorem claim_C4_counterexample :
    (simpleDownload true true [] 5 [10, 11, 12, 13, 14]).rangeHeader = none ∧
    (simpleDownload true true [] 5 [10, 11, 12, 13, 14]).appendMode = false := by
  decide

/-- Claim C4 (amended): for an existing destination file of length L with
resume enabled: if L equals the total size, the download returns success
immediately with no network request and the file untouched; if 0 < L < total
size, the request carries `Range: bytes=L-`, the file is opened in append
mode, the final length equals the total size, and the first L bytes are
never rewritten; if L = 0, no Range header is sent and the whole resource is
rewritten from scratch (mode 'wb'). -/
theorem claim_C4_resume (existing : List ℕ) (fileSize : ℕ) (resource : List ℕ)
    (hres : resource.length = fileSize) :
    (existing.length = fileSize →
      simpleDownload true true existing fileSize resource
        = ⟨none, false, false, existing, true⟩) ∧
    (0 < existing.length → existing.length < fileSize →
      (simpleDownload true true existing fileSize resource).rangeHeader
          = some existing.length ∧
      (simpleDownload true true existing fileSize resource).appendMode = true ∧
      (simpleDownload true true existing fileSize resource).finalFile.length = fileSize ∧
      (simpleDownload true true existing fileSize resource).finalFile.take existing.length
          = existing) ∧
    (existing.length = 0 → 0 < fileSize →
      (simpleDownload true true existing fileSize resource).rangeHeader = none ∧
      (simpleDownload true true existing fileSize resource).appendMode = false ∧
      (simpleDownload true true existing fileSize resource).finalFile = resource) := by
  refine ⟨fun hL => ?_, fun hpos hlt => ?_, fun h0 hfs => ?_⟩
  · rw [simpleDownload, if_pos ⟨rfl, rfl, hL⟩]
  · have hne : ¬ existing.length = fileSize := by omega
    refine ⟨?_, ?_, ?_, ?_⟩
    · simp [simpleDownload, hne, hpos]
    · simp [simpleDownload, hne, hpos]
    · simp [simpleDownload, hne, hpos, hres]
      omega
    · simp [simpleDownload, hne, hpos, List.take_left]
  · have hne : ¬ existing.length = fileSize := by omega
    have hne0 : ¬ (0 : ℕ) = fileSize := by omega
    refine ⟨?_, ?_, ?_⟩
    · simp [simpleDownload, hne, h0, hne0]
    · simp [simpleDownload, hne, h0, hne0]
    · simp [simpleDownload, hne, h0, hne0]

/-- Concrete instance of the amended claim C4 with a two-byte partial file of
a five-byte resource. -/
theorem claim_C4_resume_witness :
    0 < ([7, 8] : List ℕ).length ∧
    ((simpleDownload true true [7, 8] 5 [1, 2, 3, 4, 5]).rangeHeader = some 2 ∧
      (simpleDownload true true [7, 8] 5 [1, 2, 3, 4, 5]).appendMode = true ∧
      (simpleDownload true true [7, 8] 5 [1, 2, 3, 4, 5]).finalFile.length = 5 ∧
      (simpleDownload true true [7, 8] 5 [1, 2, 3, 4, 5]).finalFile.take 2 = [7, 8]) :=
  ⟨by decide,
    (claim_C4_resume [7, 8] 5 [1, 2, 3, 4, 5] (by decide)).2.1 (by decide) (by decide)⟩

/-- Claim C5 is false on the code: with a configured cap of 1 KB/s and a
1024-byte chunk arriving instantly (elapsed 0, so the observed rate exceeds
the cap and the deficit is 1 second), the fallback loop sleeps 1 second but
the segment worker's loop body sleeps 0 — download_chunk contains no rate
limiting at all. -/
theorem claim_C5_counterexample :
    simpleChunkSleep 1 1024 0 = 1 ∧
    (workerChunkIteration [] 0 (List.replicate 1024 0)).2 = 0 := by
  constructor
  · norm_num [simpleChunkSleep]
  · rfl

/-- Claim C5 (amended): rate limiting exists only on the single-stream
fallback path — after each chunk it sleeps `expected - elapsed` whenever the
cap is positive and `elapsed < expected` (and never sleeps with cap 0) —
while the segment worker's chunk loop only writes the chunk and adds its
length to the shared counter, sleeping 0 always. -/
theorem claim_C5_rate_limit_location (rate chunkLen : ℕ) (elapsed : ℚ)
    (sink : List ℕ) (counter : ℕ) (chunk : List ℕ) :
    (workerChunkIteration sink counter chunk).2 = 0 ∧
    (workerChunkIteration sink counter chunk).1 = (sink ++ chunk, counter + chunk.length) ∧
    (0 < rate → elapsed < (chunkLen : ℚ) / ((rate : ℚ) * 1024) →
      simpleChunkSleep rate chunkLen elapsed
        = (chunkLen : ℚ) / ((rate : ℚ) * 1024) - elapsed) ∧
    (rate = 0 → simpleChunkSleep rate chunkLen elapsed = 0) := by
  refine ⟨rfl, rfl, fun h1 h2 => ?_, fun h0 => ?_⟩
  · rw [simpleChunkSleep, if_pos h1, if_pos h2]
  · rw [simpleChunkSleep, h0]
    simp

/-- Concrete instance of the amended claim C5. -/
theorem claim_C5_rate_limit_location_witness :
    (workerChunkIteration [5] 3 [7, 7]).2 = 0 ∧
    simpleChunkSleep 1 1024 0 = (1024 : ℚ) / ((1 : ℚ) * 1024) - 0 :=
  ⟨(claim_C5_rate_limit_location 1 1024 0 [5] 3 [7, 7]).1,
    (claim_C5_rate_limit_location 1 1024 0 [5] 3 [7, 7]).2.2.1 (by norm_num) (by norm_num)⟩

/-- Claim C8 is false on the code: at probed size 0 the planner, as written,
would produce one degenerate segment per worker (16 with the default
configuration), not zero segments; and with no pre-existing destination file
the engine is not immediately complete — the fallback issues a network GET
(whose empty body then yields the zero-length file). -/
theorem claim_C8_counterexample :
    (downloadTasks 0 16).length = 16 ∧
    (simpleDownload false true [] 0 []).networkUsed = true := by
  decide

/-- Claim C8 (amended): a probed size of 0 never routes to the segmented path
(so the planner is not invoked); the single-stream fallback returns success
with a zero-length destination for any existing/resume combination, and
short-circuits without network access exactly when an (empty) destination
file already exists with resume enabled. -/
theorem claim_C8_zero_size :
    (∀ r, useThreaded 0 r = false) ∧
    (∀ destExists resumeEnabled,
      (simpleDownload destExists resumeEnabled [] 0 []).ok = true ∧
      (simpleDownload destExists resumeEnabled [] 0 []).finalFile = []) ∧
    (simpleDownload true true [] 0 []).networkUsed = false := by
  decide

/-- Claim C9 is false on the code in its acceptance part:
`https://localhost/file.zip` has an allowed scheme, a host, and no blocked
suffix, yet validate_url rejects it (suspicious domain) instead of accepting
it. -/
theorem claim_C9_counterexample :
    validateUrl "https://localhost/file.zip".data = some UrlRejection.suspiciousDomain ∧
    (urlparseL "https://localhost/file.zip".data).scheme ∈ allowedProtocols ∧
    (urlparseL "https://localhost/file.zip".data).netloc ≠ [] ∧
    blockedExtensions.filter
      (fun e => endsWithL (lowerL (urlparseL "https://localhost/file.zip".data).path) e)
        = [] := by
  decide

/-- Claim C9 (amended): URL validation is pure; it rejects a URL whose parsed
scheme is not in the allowed-protocol set, rejects a URL without a host,
rejects (with some reason) any URL whose lower-cased path ends with a blocked
extension, and accepts a URL with an allowed scheme, a host, and no blocked
suffix provided additionally the host is not a suspicious domain (or the raw
URL starts with `http://localhost`). -/
theorem claim_C9_validation (url : List Char) :
    ((urlparseL url).scheme ∉ allowedProtocols →
      validateUrl url = some UrlRejection.protocolNotAllowed) ∧
    ((urlparseL url).scheme ∈ allowedProtocols → (urlparseL url).netloc = [] →
      validateUrl url = some UrlRejection.invalidHostname) ∧
    (blockedExtensions.filter (fun e => endsWithL (lowerL (urlparseL url).path) e) ≠ [] →
      validateUrl url ≠ none) ∧
    ((urlparseL url).scheme ∈ allowedProtocols → (urlparseL url).netloc ≠ [] →
      ¬ (lowerL (urlparseL url).netloc ∈ suspiciousDomains ∧
          ¬ startsWithL url localhostBypass) →
      blockedExtensions.filter (fun e => endsWithL (lowerL (urlparseL url).path) e) = [] →
      validateUrl url = none) := by
  simp only [validateUrl]
  split_ifs with h1 h2 h3 h4 <;> simp_all

/-- Concrete instance of the amended claim C9: `https://example.com/file.zip`
passes every check and is accepted. -/
theorem claim_C9_validation_witness :
    validateUrl "https://example.com/file.zip".data = none :=
  (claim_C9_validation "https://example.com/file.zip".data).2.2.2
    (by decide) (by decide) (by decide) (by decide)

/-- Claim C10: validate_url rejects any URL whose lower-cased netloc is
exactly localhost, 127.0.0.1 or 0.0.0.0 as a suspicious domain — except that
a URL string beginning with the literal `http://localhost` bypasses this
check and is accepted provided the scheme, host and extension checks pass. -/
theorem claim_C10_suspicious_bypass (url : List Char)
    (hscheme : (urlparseL url).scheme ∈ allowedProtocols)
    (hnet : (urlparseL url).netloc ≠ []) :
    (lowerL (urlparseL url).netloc ∈ suspiciousDomains →
      ¬ startsWithL url localhostBypass →
      validateUrl url = some UrlRejection.suspiciousDomain) ∧
    (startsWithL url localhostBypass →
      blockedExtensions.filter (fun e => endsWithL (lowerL (urlparseL url).path) e) = [] →
      validateUrl url = none) := by
  simp only [validateUrl]
  split_ifs <;> simp_all

/-- Concrete instance of claim C10: `http://localhost/file.zip` has a
suspicious netloc but starts with `http://localhost`, so it is accepted. -/
theorem claim_C10_suspicious_bypass_witness :
    lowerL (urlparseL "http://localhost/file.zip".data).netloc ∈ suspiciousDomains ∧
    validateUrl "http://localhost/file.zip".data = none :=
  ⟨by decide,
    (claim_C10_suspicious_bypass "http://localhost/file.zip".data
      (by decide) (by decide)).2 (by decide) (by decide)⟩
